import Mathlib

/-!
Verification of the browser-automation recording-to-workflow system.

This file gives a shallow embedding of the data model and the operations of
the repository (the semantic extraction pipeline in `pkg/semantic` and
`pkg/ingestion`, the one-file job-graph experiment in `main.go`, the template
code generator in `pkg/llm`, and the durable-execution workflow in
`pkg/temporal`), and proves or refutes the specification claims about them.

Conventions of the embedding:
* Go strings are Lean `String`s; byte lengths coincide with character counts
  on the ASCII data handled here.
* Go `map[string]interface{}` attribute maps become association lists
  `List (String × AttrValue)`; a Go `v, ok := m[k].(string)` type assertion
  becomes a lookup returning `AttrValue.str`.  Where Go ranges over a map
  (whose iteration order is unspecified) the embedding ranges over the list
  in order; theorems that depend on iteration order quantify over
  permutations of the list explicitly.
* Stateful loops become structural recursions carrying the loop state.
-/

/-- The closed set of semantic action kinds (`pkg/models/types.go`, `ActionType`). -/
inductive ActionType where
  | navigate
  | click
  | dblclick
  | rightclick
  | input
  | keypress
  | scroll
  | hover
  | focus
  | blur
  | selectText
  | copy
  | paste
  | cut
  | drag
  | drop
  | mediaPlay
  | mediaPause
  | mediaSeek
  | fileUpload
  | submit
  deriving DecidableEq, Repr

/-- Interaction ranks (`pkg/models/types.go`, `InteractionRank`). -/
inductive InteractionRank where
  | high
  | medium
  | low
  deriving DecidableEq, Repr

/-- Run and action statuses (`pkg/models/types.go`, `RunStatus`). -/
inductive RunStatus where
  | pending
  | running
  | success
  | failed
  | canceled
  deriving DecidableEq, Repr

/-- A value in a Go `map[string]interface{}` attribute map: either a string or
some non-string JSON value (whose precise contents the code never inspects). -/
inductive AttrValue where
  | str (s : String)
  | nonString
  deriving DecidableEq, Repr

/-- Attribute maps, as association lists in insertion order. -/
abbrev Attrs := List (String × AttrValue)

/-- The target element of a semantic action (`pkg/models/types.go`, `SemanticTarget`). -/
structure SemanticTarget where
  tag : String := ""
  text : String := ""
  selector : String := ""
  attributes : Attrs := []
  nodeID : Nat := 0
  deriving DecidableEq, Repr

/-- A semantic action (`pkg/models/types.go`, `SemanticAction`).  The fields the
verified code reads are carried; `metadata` stands for the opaque metadata map. -/
structure SemanticAction where
  sequenceID : Nat := 0
  actionType : ActionType
  target : SemanticTarget := {}
  value : String := ""
  rank : InteractionRank := .low
  metadata : List (String × String) := []
  timestamp : Int := 0
  deriving DecidableEq, Repr

/-- Model of `shouldContinueOnFailure` from
`pkg/temporal/workflows/browser_workflow.go`: continue on low-rank actions,
stop on `navigate`/`input`, continue otherwise. -/
def shouldContinueOnFailure (action : SemanticAction) : Bool :=
  if action.rank = .low then true
  else if action.actionType = .navigate ∨ action.actionType = .input then false
  else true

/-- State of the action loop in `BrowserAutomationWorkflow`: the run status
and the accumulated action results, each a `(sequenceID, status)` pair. -/
structure LoopState where
  status : RunStatus
  results : List (Nat × RunStatus)
  deriving DecidableEq, Repr

/-- The action loop of `BrowserAutomationWorkflow` (browser_workflow.go).
Each list entry pairs an action with the success of its activity execution.
On failure the failed result is recorded, and the loop breaks with run status
`failed` unless `shouldContinueOnFailure` holds. -/
def execLoop : List (SemanticAction × Bool) → LoopState → LoopState
  | [], st => st
  | (a, ok) :: rest, st =>
    if ok then
      execLoop rest { st with results := st.results ++ [(a.sequenceID, RunStatus.success)] }
    else
      let st := { st with results := st.results ++ [(a.sequenceID, RunStatus.failed)] }
      if shouldContinueOnFailure a then execLoop rest st
      else { st with status := RunStatus.failed }

/-- Final-status computation after the loop (browser_workflow.go lines
136-149): keep `failed`, otherwise `success` iff every recorded result
succeeded. -/
def finalStatus (st : LoopState) : RunStatus :=
  if st.status = RunStatus.failed then RunStatus.failed
  else if st.results.all (fun r => r.2 = RunStatus.success) then RunStatus.success
  else RunStatus.failed

/-- Claim C1, counterexample.  The claim says the run continues after a failure
iff the action's rank is Low, and that a failed `navigate` always stops the
run.  The code continues after a failed Medium-rank click (rank is not Low),
and continues after a failed Low-rank navigate (a navigate that does not stop
the run), refuting both halves at concrete actions. -/
theorem c1_continue_policy_counterexample :
    (shouldContinueOnFailure { actionType := .click, rank := .medium } = true
      ∧ ({ actionType := ActionType.click, rank := .medium : SemanticAction }).rank ≠ .low)
    ∧ shouldContinueOnFailure { actionType := .navigate, rank := .low } = true := by
  refine ⟨⟨rfl, ?_⟩, rfl⟩
  decide

/-- Claim C1, amended.  The orchestration continues after a failed action iff
the action's rank is Low or its kind is neither `navigate` nor `input`;
when continuation is denied the loop records the failed result, sets the run
status to `failed` and breaks (the remaining actions are never executed), and
when it is allowed the loop proceeds with the remaining actions. -/
theorem shouldContinueOnFailure_characterization :
    (∀ a : SemanticAction,
      shouldContinueOnFailure a = true ↔
        (a.rank = .low ∨ (a.actionType ≠ .navigate ∧ a.actionType ≠ .input)))
    ∧ (∀ (a : SemanticAction) (rest : List (SemanticAction × Bool)) (st : LoopState),
        shouldContinueOnFailure a = false →
          execLoop ((a, false) :: rest) st =
            { status := RunStatus.failed,
              results := st.results ++ [(a.sequenceID, RunStatus.failed)] })
    ∧ (∀ (a : SemanticAction) (rest : List (SemanticAction × Bool)) (st : LoopState),
        shouldContinueOnFailure a = true →
          execLoop ((a, false) :: rest) st =
            execLoop rest
              { st with results := st.results ++ [(a.sequenceID, RunStatus.failed)] }) := by
  refine ⟨?_, ?_, ?_⟩
  · intro a
    unfold shouldContinueOnFailure
    rcases a with ⟨_, ty, _, _, rk, _, _⟩
    cases rk <;> cases ty <;> simp
  · intro a rest st h
    simp [execLoop, h]
  · intro a rest st h
    simp [execLoop, h]

/-- Witness for the amended C1 theorem at concrete inputs: a Medium-rank
navigate denies continuation and the loop breaks with status `failed`. -/
theorem shouldContinueOnFailure_characterization_witness :
    execLoop [({ sequenceID := 1, actionType := .navigate, rank := .medium }, false),
        ({ sequenceID := 2, actionType := .click, rank := .high }, true)]
        { status := RunStatus.running, results := [] } =
      { status := RunStatus.failed, results := [(1, RunStatus.failed)] } := by
  have h := shouldContinueOnFailure_characterization.2.1
    { sequenceID := 1, actionType := .navigate, rank := .medium }
    [({ sequenceID := 2, actionType := .click, rank := .high }, true)]
    { status := RunStatus.running, results := [] } (by decide)
  simpa using h

/-- Character-list primitives.  The Go code only ever splits and trims on
single ASCII characters and short ASCII literals; these helpers mirror the Go
`strings` functions on `List Char`, using structural recursion so that all
theorems about concrete inputs evaluate inside the kernel. -/
def listHasLead [DecidableEq α] : List α → List α → Bool
  | _, [] => true
  | [], _ :: _ => false
  | a :: as, b :: bs => a = b ∧ listHasLead as bs

/-- Go `strings.HasPrefix` on strings. -/
def strHasLead (s p : String) : Bool := listHasLead s.data p.data

/-- Go `strings.TrimPrefix`: drop `p` from the front of `s` when present. -/
def trimLeading (s p : String) : String :=
  if strHasLead s p then ⟨s.data.drop p.data.length⟩ else s

/-- Splitting a character list at every occurrence of a separator character
(Go `strings.Split` with a one-character separator). -/
def splitCharAux (sep : Char) : List Char → List Char → List (List Char)
  | [], acc => [acc.reverse]
  | c :: cs, acc =>
    if c = sep then acc.reverse :: splitCharAux sep cs []
    else splitCharAux sep cs (c :: acc)

/-- Go `strings.Split(s, sep)` for a one-character separator. -/
def splitChar (sep : Char) (s : String) : List String :=
  (splitCharAux sep s.data []).map (fun l => ⟨l⟩)

/-- Go `strings.Join` / `String.intercalate` by structural recursion. -/
def joinWith (sep : String) : List String → String
  | [] => ""
  | [x] => x
  | x :: xs => x ++ sep ++ joinWith sep xs

/-- Go `strings.SplitN(s, sep, 2)` for a one-character separator: the part
before the first occurrence and the rest (just `[s]` without an occurrence). -/
def splitFirst (sep : Char) (s : String) : List String :=
  match splitChar sep s with
  | [] => [s]
  | [x] => [x]
  | x :: xs => [x, joinWith (String.singleton sep) xs]

/-- The ASCII characters the URL and selector code splits on. -/
def qmarkChar : Char := Char.ofNat 63

def ampChar : Char := Char.ofNat 38

def equalChar : Char := Char.ofNat 61

def slashChar : Char := Char.ofNat 47

def dashChar : Char := Char.ofNat 45

def uscoreChar : Char := Char.ofNat 95

def backslashChar : Char := Char.ofNat 92

def squoteChar : Char := Char.ofNat 39

def dquoteChar : Char := Char.ofNat 34

/-- Model of `extractDomain` from `pkg/semantic` (extractor): strip `https://` then
`http://`, then keep everything before the first `/`. -/
def extractDomain (u : String) : String :=
  let u := trimLeading (trimLeading u "https://") "http://"
  (splitFirst slashChar u).headD ""

/-- Model of `isSameDomain` from `pkg/semantic`: both domains non-empty and equal. -/
def isSameDomain (url1 url2 : String) : Bool :=
  let d1 := extractDomain url1
  let d2 := extractDomain url2
  d1 ≠ "" ∧ d2 ≠ "" ∧ d1 = d2

/-- Tracking-parameter name stems stripped by `normalizeURL` (pkg/semantic). -/
def trackingParams : List String :=
  ["utm_", "fbclid", "gclid", "ref", "source", "sxsrf", "ved", "ei"]

/-- Model of `normalizeURL` from `pkg/semantic`: split at the first `?`, drop query
parameters whose key (the part before the first `=`) starts with a tracking
stem, and reassemble; with no `?`, or with every parameter dropped, return
the URL respectively the bare base. -/
def normalizeURL (url : String) : String :=
  match splitFirst qmarkChar url with
  | [] => url
  | [_] => url
  | base :: qs =>
    let queryString := joinWith "?" qs
    let params := splitChar ampChar queryString
    let filtered := params.filter (fun p =>
      let key := (splitFirst equalChar p).headD ""
      ¬ trackingParams.any (fun tp => strHasLead key tp))
    if filtered = [] then base else base ++ "?" ++ joinWith "&" filtered

/-- Model of `isInteractiveAction` from `pkg/semantic`. -/
def isInteractiveAction : ActionType → Bool
  | .click | .dblclick | .input | .keypress | .submit | .blur | .focus => true
  | _ => false

/-- Drop condition of `deduplicateNavigations` for a navigate action `curr`,
given the previously kept action `prev` and the tracked current URL:
(a)/(b) `prev` is a navigate with the same normalized URL or the same domain,
or (c) `prev` is an interactive action and `curr` shares a domain with the
current URL. -/
def navDropCond (prev : SemanticAction) (currentURL : String) (curr : SemanticAction) : Bool :=
  (prev.actionType = ActionType.navigate ∧
      (normalizeURL curr.value = normalizeURL prev.value ∨ isSameDomain curr.value prev.value))
  ∨ (isInteractiveAction prev.actionType ∧ isSameDomain curr.value currentURL)

/-- Loop of `deduplicateNavigations` (pkg/semantic), processing the remaining
actions given the previously kept action and the tracked current URL.  The
current URL is updated exactly when a navigate action is kept. -/
def dedupNavAux (prev : SemanticAction) (currentURL : String) :
    List SemanticAction → List SemanticAction
  | [] => []
  | curr :: rest =>
    if curr.actionType = ActionType.navigate then
      if navDropCond prev currentURL curr then dedupNavAux prev currentURL rest
      else curr :: dedupNavAux curr curr.value rest
    else curr :: dedupNavAux curr currentURL rest

/-- Model of `deduplicateNavigations` from `pkg/semantic`: the first action is always
kept and seeds the current URL with its value. -/
def deduplicateNavigations : List SemanticAction → List SemanticAction
  | [] => []
  | a :: rest => a :: dedupNavAux a a.value rest

/-- Adjacent-pair guarantee on dedup output: two adjacent kept actions are
never both navigates with equal normalized URLs or a shared domain. -/
def navAdjacentOK (a b : SemanticAction) : Prop :=
  a.actionType = ActionType.navigate → b.actionType = ActionType.navigate →
    (normalizeURL b.value ≠ normalizeURL a.value ∧ isSameDomain b.value a.value = false)

theorem dedupNavAux_filter_nonNav (l : List SemanticAction) :
    ∀ prev currentURL,
      (dedupNavAux prev currentURL l).filter
          (fun a => !(a.actionType == ActionType.navigate)) =
        l.filter (fun a => !(a.actionType == ActionType.navigate)) := by
  induction l with
  | nil => intro prev cur; rfl
  | cons curr rest ih =>
    intro prev cur
    by_cases hnav : curr.actionType = ActionType.navigate
    · have hb : (curr.actionType == ActionType.navigate) = true := by simp [hnav]
      by_cases hdrop : navDropCond prev cur curr = true
      · simp [dedupNavAux, hnav, hdrop, List.filter_cons, hb, ih]
      · simp [dedupNavAux, hnav, hdrop, List.filter_cons, hb, ih]
    · have hb : (curr.actionType == ActionType.navigate) = false := by
        simp [hnav]
      simp [dedupNavAux, hnav, List.filter_cons, hb, ih]

theorem dedupNavAux_sublist (l : List SemanticAction) :
    ∀ prev currentURL, (dedupNavAux prev currentURL l).Sublist l := by
  induction l with
  | nil => intro prev cur; simp [dedupNavAux]
  | cons curr rest ih =>
    intro prev cur
    by_cases hnav : curr.actionType = ActionType.navigate
    · by_cases hdrop : navDropCond prev cur curr = true
      · simp only [dedupNavAux, hnav, hdrop, if_true]
        exact (ih prev cur).cons curr
      · simp only [dedupNavAux, hnav, hdrop, if_true, if_false, Bool.false_eq_true]
        exact (ih curr curr.value).cons₂ curr
    · simp only [dedupNavAux, hnav, if_false]
      exact (ih curr cur).cons₂ curr

theorem dedupNavAux_chain (l : List SemanticAction) :
    ∀ prev currentURL, List.Chain' navAdjacentOK (prev :: dedupNavAux prev currentURL l) := by
  induction l with
  | nil => intro prev cur; simp [dedupNavAux]
  | cons curr rest ih =>
    intro prev cur
    by_cases hnav : curr.actionType = ActionType.navigate
    · by_cases hdrop : navDropCond prev cur curr = true
      · simpa [dedupNavAux, hnav, hdrop] using ih prev cur
      · simp only [dedupNavAux, hnav, hdrop, if_true, if_false, Bool.false_eq_true]
        rw [List.chain'_cons]
        refine ⟨?_, ih curr curr.value⟩
        intro hp _
        have hcond : ¬ ((prev.actionType = ActionType.navigate ∧
            (normalizeURL curr.value = normalizeURL prev.value ∨
              isSameDomain curr.value prev.value)) ∨
            (isInteractiveAction prev.actionType ∧ isSameDomain curr.value cur)) := by
          intro hc
          exact hdrop (by simp [navDropCond]; tauto)
        constructor
        · intro heq
          exact hcond (Or.inl ⟨hp, Or.inl heq⟩)
        · by_contra hsd
          have : isSameDomain curr.value prev.value = true := by
            revert hsd
            cases isSameDomain curr.value prev.value <;> simp
          exact hcond (Or.inl ⟨hp, Or.inr this⟩)
    · simp only [dedupNavAux, hnav, if_false]
      rw [List.chain'_cons]
      refine ⟨?_, ih curr cur⟩
      intro _ hb
      exact absurd ‹curr.actionType = ActionType.navigate› hnav

/-- Claim C3, amended.  During the linear scan of `deduplicateNavigations`
a navigate is dropped exactly when `navDropCond` holds of the previously kept
action and the tracked current URL — conditions (a)/(b)/(c) of the claim —
while every other action is kept, becoming the new previous action (a kept
navigate also updates the current URL).  Consequently the function keeps
every non-navigate action in order, returns a subsequence of its input, and
guarantees that no two adjacent actions of its output are navigates with the
same normalized URL or a shared domain (so at most one of a consecutive
duplicate pair survives; the navigate dropped may however be the first of
the pair, see the counterexample). -/
theorem deduplicateNavigations_properties :
    (∀ (prev : SemanticAction) (currentURL : String) (curr : SemanticAction)
        (rest : List SemanticAction),
      dedupNavAux prev currentURL (curr :: rest) =
        if curr.actionType = ActionType.navigate then
          (if navDropCond prev currentURL curr then dedupNavAux prev currentURL rest
            else curr :: dedupNavAux curr curr.value rest)
        else curr :: dedupNavAux curr currentURL rest)
    ∧ ∀ l : List SemanticAction,
      ((deduplicateNavigations l).filter
          (fun a => !(a.actionType == ActionType.navigate)) =
        l.filter (fun a => !(a.actionType == ActionType.navigate)))
      ∧ List.Chain' navAdjacentOK (deduplicateNavigations l)
      ∧ (deduplicateNavigations l).Sublist l := by
  refine ⟨fun prev currentURL curr rest => rfl, ?_⟩
  intro l
  cases l with
  | nil => exact ⟨rfl, by simp [deduplicateNavigations], by simp [deduplicateNavigations]⟩
  | cons a rest =>
    refine ⟨?_, ?_, ?_⟩
    · simp only [deduplicateNavigations, List.filter_cons]
      rw [dedupNavAux_filter_nonNav rest a a.value]
    · simpa [deduplicateNavigations] using dedupNavAux_chain rest a a.value
    · simpa [deduplicateNavigations] using (dedupNavAux_sublist rest a a.value).cons₂ a

/-- First action of the C3 counterexample run: an interactive (input) action
whose recorded value happens to look like a domain. -/
def c3ActInput : SemanticAction :=
  { sequenceID := 1, actionType := .input, value := "a.com?utm_x=1" }

/-- Second action of the C3 counterexample run: a navigate. -/
def c3ActNav1 : SemanticAction :=
  { sequenceID := 2, actionType := .navigate, value := "a.com?utm_x=1" }

/-- Third action of the C3 counterexample run: a navigate whose value has the
same normalized URL as the previous navigate. -/
def c3ActNav2 : SemanticAction :=
  { sequenceID := 3, actionType := .navigate, value := "a.com?utm_y=2" }

/-- Claim C3, counterexample.  The two navigates are consecutive and have the
same normalized URL, yet the second survives deduplication while the first is
dropped (the first is removed as consequential to the preceding interaction,
after which the second no longer matches the drop conditions), refuting
"for any consecutive pair of navigate actions with the same normalized URL or
same domain, only the first survives". -/
theorem c3_dedup_counterexample :
    normalizeURL c3ActNav1.value = normalizeURL c3ActNav2.value
    ∧ deduplicateNavigations [c3ActInput, c3ActNav1, c3ActNav2] =
        [c3ActInput, c3ActNav2] := by
  constructor
  · rfl
  · rfl

/-- Look-ahead loop of `debounceInputs` (pkg/semantic): while the next action
is an `input` on the same selector as the current input, take over its value
and skip it. -/
def debounceLook (curr : SemanticAction) :
    List SemanticAction → SemanticAction × List SemanticAction
  | [] => (curr, [])
  | next :: rest =>
    if next.actionType = ActionType.input ∧ next.target.selector = curr.target.selector then
      debounceLook { curr with value := next.value } rest
    else (curr, next :: rest)

theorem debounceLook_rest_length (l : List SemanticAction) :
    ∀ curr, (debounceLook curr l).2.length ≤ l.length := by
  induction l with
  | nil => intro curr; simp [debounceLook]
  | cons next rest ih =>
    intro curr
    by_cases h : next.actionType = ActionType.input ∧ next.target.selector = curr.target.selector
    · simp only [debounceLook, h, if_true]
      exact le_trans (ih _) (Nat.le_succ _)
    · simp [debounceLook, h]

/-- Fuel-indexed loop of `debounceInputs`; the fuel dominates the list
length on every call from `debounceInputs`, so the `0` case is never taken.
Structural recursion on the fuel keeps concrete runs kernel-evaluable. -/
def debounceFuel : Nat → List SemanticAction → List SemanticAction
  | _, [] => []
  | 0, l => l
  | fuel + 1, curr :: rest =>
    if curr.actionType = ActionType.input then
      (debounceLook curr rest).1 :: debounceFuel fuel (debounceLook curr rest).2
    else curr :: debounceFuel fuel rest

/-- Model of `debounceInputs` from `pkg/semantic`: coalesce maximal runs of
consecutive `input` actions on one selector into the first of the run,
carrying the last value. -/
def debounceInputs (l : List SemanticAction) : List SemanticAction :=
  debounceFuel l.length l

/-- Predicate for membership in the run started by the input action `a`:
an `input` action on the same selector. -/
def sameInputRun (a b : SemanticAction) : Bool :=
  b.actionType == ActionType.input && b.target.selector == a.target.selector

/-- Value carried by the survivor of a debounce run: the value of the last
action of the run, or the head's own value for an empty run. -/
def lastValue (a : SemanticAction) (run : List SemanticAction) : String :=
  (run.getLast?.map fun b => b.value).getD a.value

/-- Declarative description of debouncing, following the claim: for an input
action, the maximal run of following consecutive inputs on the same selector
is dropped and only the head survives, all fields unchanged except that its
value becomes the value of the last action of the run; actions outside such
runs pass through unchanged. -/
def debounceSpec : List SemanticAction → List SemanticAction
  | [] => []
  | a :: rest =>
    if a.actionType = ActionType.input then
      let run := rest.takeWhile (sameInputRun a)
      { a with value := lastValue a run } :: debounceSpec (rest.drop run.length)
    else a :: debounceSpec rest
termination_by l => l.length
decreasing_by
  · simp only [List.length_cons, List.length_drop]
    omega
  · simp

theorem lastValue_cons (curr next : SemanticAction) (run : List SemanticAction) :
    lastValue curr (next :: run) = lastValue { curr with value := next.value } run := by
  cases run with
  | nil => simp [lastValue]
  | cons c cs =>
    simp only [lastValue, List.getLast?_cons_cons]
    cases hcl : (c :: cs).getLast? with
    | none =>
      have : (c :: cs) = [] := List.getLast?_eq_none_iff.mp hcl
      simp at this
    | some b => simp

theorem sameInputRun_value (curr : SemanticAction) (v : String) :
    sameInputRun { curr with value := v } = sameInputRun curr := by
  funext b
  rfl

theorem debounceLook_spec (l : List SemanticAction) :
    ∀ curr,
      debounceLook curr l =
        ({ curr with value := lastValue curr (l.takeWhile (sameInputRun curr)) },
          l.drop (l.takeWhile (sameInputRun curr)).length) := by
  induction l with
  | nil => intro curr; simp [debounceLook, lastValue]
  | cons next rest ih =>
    intro curr
    by_cases h : next.actionType = ActionType.input ∧ next.target.selector = curr.target.selector
    · have hb : sameInputRun curr next = true := by
        simp [sameInputRun, h.1, h.2]
      simp only [debounceLook, h, if_true, List.takeWhile_cons, hb]
      rw [ih { curr with value := next.value }, sameInputRun_value]
      rw [lastValue_cons curr next (rest.takeWhile (sameInputRun curr))]
      simp
    · have hb : sameInputRun curr next = false := by
        simp only [sameInputRun, Bool.and_eq_false_iff]
        by_cases h1 : next.actionType = ActionType.input
        · right
          have h2 : ¬ next.target.selector = curr.target.selector := fun hc => h ⟨h1, hc⟩
          simp [h2]
        · left; simp [h1]
      simp [debounceLook, h, List.takeWhile_cons, hb, lastValue]

/-- Claim C10.  The Go look-ahead loop of `debounceInputs` computes exactly
the claim-level description `debounceSpec`: each maximal run of consecutive
`input` actions sharing the first action's selector is collapsed to that
first action with sequence id, timestamp, target and metadata unchanged and
only the value replaced by the last value of the run, while every action
outside such runs passes through unchanged. -/
theorem debounceFuel_eq_debounceSpec :
    ∀ (fuel : Nat) (l : List SemanticAction), l.length ≤ fuel →
      debounceFuel fuel l = debounceSpec l := by
  intro fuel
  induction fuel with
  | zero =>
    intro l hl
    have : l = [] := List.eq_nil_of_length_eq_zero (Nat.le_zero.mp hl)
    subst this
    simp [debounceFuel, debounceSpec]
  | succ fuel ih =>
    intro l hl
    cases l with
    | nil => simp [debounceFuel, debounceSpec]
    | cons a rest =>
      by_cases h : a.actionType = ActionType.input
      · have hlen : (debounceLook a rest).2.length ≤ fuel := by
          have h1 := debounceLook_rest_length rest a
          simp only [List.length_cons] at hl
          omega
        have hrec := ih (debounceLook a rest).2 hlen
        simp only [debounceFuel, debounceSpec, h, if_true]
        rw [hrec, debounceLook_spec rest a]
        simp [h]
      · have hrest : rest.length ≤ fuel := by
          simp only [List.length_cons] at hl
          omega
        simp only [debounceFuel, debounceSpec, h, if_false]
        rw [ih rest hrest]

/-- Claim C10.  The Go look-ahead loop of `debounceInputs` computes exactly
the claim-level description `debounceSpec`: each maximal run of consecutive
`input` actions sharing the first action's selector is collapsed to that
first action with sequence id, timestamp, target and metadata unchanged and
only the value replaced by the last value of the run, while every action
outside such runs passes through unchanged. -/
theorem debounceInputs_eq_debounceSpec (l : List SemanticAction) :
    debounceInputs l = debounceSpec l :=
  debounceFuel_eq_debounceSpec l.length l le_rfl

/-- ASCII character class tests matching the `unicode` checks the Go code
performs on its ASCII inputs. -/
def isDigitChar (c : Char) : Bool := 48 ≤ c.toNat ∧ c.toNat ≤ 57

def isUpperChar (c : Char) : Bool := 65 ≤ c.toNat ∧ c.toNat ≤ 90

def isLowerChar (c : Char) : Bool := 97 ≤ c.toNat ∧ c.toNat ≤ 122

def isLetterChar (c : Char) : Bool := isUpperChar c ∨ isLowerChar c

/-- Whitespace characters, as split on by Go `strings.Fields`. -/
def isSpaceChar (c : Char) : Bool :=
  c.toNat = 32 ∨ c.toNat = 9 ∨ c.toNat = 10 ∨ c.toNat = 13 ∨ c.toNat = 11 ∨ c.toNat = 12

/-- Model of `containsNumbersAndLetters` (pkg/semantic and main.go): the
dynamic-identifier heuristic, true iff the string has at least one letter and
at least one digit. -/
def containsNumbersAndLetters (s : String) : Bool :=
  s.data.any isLetterChar ∧ s.data.any isDigitChar

/-- Replace one character by a character sequence throughout a list
(Go `strings.ReplaceAll` with a one-character pattern). -/
def replaceChar (c : Char) (r : List Char) : List Char → List Char
  | [] => []
  | x :: xs => if x = c then r ++ replaceChar c r xs else x :: replaceChar c r xs

/-- Model of `escapeAttrValue` (pkg/semantic): double backslashes, then escape single
quotes with a backslash. -/
def escapeAttrValue (s : String) : String :=
  ⟨replaceChar squoteChar [backslashChar, squoteChar]
    (replaceChar backslashChar [backslashChar, backslashChar] s.data)⟩

/-- Single-quote string, used when assembling attribute selectors. -/
def squote : String := String.singleton squoteChar

/-- The `fmt.Sprintf("%s[%s='%s']", tag, key, value)` shape of attribute
selectors. -/
def attrSelector (tag key value : String) : String :=
  tag ++ "[" ++ key ++ "=" ++ squote ++ value ++ squote ++ "]"

/-- Go `attrs[key].(string)` with the `ok && value != ""` guard used by every
rung of the ladder: the attribute is present, is a string, and is non-empty. -/
def strAttr (attrs : Attrs) (key : String) : Option String :=
  match attrs.lookup key with
  | some (AttrValue.str s) => if s = "" then none else some s
  | _ => none

/-- Data-attribute rung of `generateRobustSelector`: the first attribute (in
list order; Go ranges over the map in unspecified order) whose key starts
with `data-` and is not mixed-alphanumeric and whose string value is
non-empty and shorter than 50 characters. -/
def findDataAttr : Attrs → Option (String × String)
  | [] => none
  | (k, v) :: rest =>
    if strHasLead k "data-" ∧ ¬ containsNumbersAndLetters k then
      match v with
      | AttrValue.str s =>
        if s ≠ "" ∧ s.length < 50 then some (k, s) else findDataAttr rest
      | AttrValue.nonString => findDataAttr rest
    else findDataAttr rest

/-- Regex `^[a-z]+-[a-f0-9]{6,}$` (hash-based class names): since neither
character class contains a dash, a match is exactly one dash splitting a
non-empty lowercase-letter part from a lowercase-hex part of length at least
six. -/
def isHexLowerChar (c : Char) : Bool :=
  isDigitChar c ∨ (97 ≤ c.toNat ∧ c.toNat ≤ 102)

def dynPatHash (s : String) : Bool :=
  match splitChar dashChar s with
  | [a, b] =>
    a ≠ "" ∧ a.data.all isLowerChar ∧ 6 ≤ b.data.length ∧ b.data.all isHexLowerChar
  | _ => false

/-- Regex `^css-[a-z0-9]+$` (CSS-in-JS class names). -/
def dynPatCss (s : String) : Bool :=
  strHasLead s "css-" ∧ (s.data.drop 4) ≠ []
    ∧ (s.data.drop 4).all (fun c => isLowerChar c ∨ isDigitChar c)

/-- Regex `^_[a-zA-Z0-9]+$` (minified class names). -/
def dynPatMinified (s : String) : Bool :=
  match s.data with
  | [] => false
  | c :: rest =>
    c = uscoreChar ∧ rest ≠ [] ∧ rest.all (fun x => isLetterChar x ∨ isDigitChar x)

/-- Regex `[0-9]{3,}` (unanchored): contains three consecutive digits. -/
def hasThreeDigits : List Char → Bool
  | a :: b :: c :: rest =>
    (isDigitChar a ∧ isDigitChar b ∧ isDigitChar c) ∨ hasThreeDigits (b :: c :: rest)
  | _ => false

/-- A class name matching one of the four dynamic-class patterns of
`extractStaticClass` (pkg/semantic). -/
def isDynamicClass (s : String) : Bool :=
  dynPatHash s ∨ dynPatCss s ∨ dynPatMinified s ∨ hasThreeDigits s.data

/-- Go `strings.Fields`: maximal runs of non-whitespace characters. -/
def fieldsOf (s : String) : List String :=
  ((splitCharAux (Char.ofNat 32) (s.data.map (fun c => if isSpaceChar c then Char.ofNat 32 else c)) []).map
      (fun l => (⟨l⟩ : String))).filter (fun t => t ≠ "")

/-- Scan of `extractStaticClass`: the first class that is not dynamic-looking
and has length strictly between 2 and 30; otherwise the empty string. -/
def firstStaticClass : List String → String
  | [] => ""
  | c :: rest =>
    if c = "" then firstStaticClass rest
    else if ¬ isDynamicClass c ∧ 2 < c.length ∧ c.length < 30 then c
    else firstStaticClass rest

/-- Model of `extractStaticClass` (pkg/semantic). -/
def extractStaticClass (classStr : String) : String :=
  firstStaticClass (fieldsOf classStr)

/-- Lowercase an ASCII string (Go `strings.ToLower` on the ASCII tags used). -/
def lowerChar (c : Char) : Char :=
  if 65 ≤ c.toNat ∧ c.toNat ≤ 90 then Char.ofNat (c.toNat + 32) else c

def asciiLower (s : String) : String := ⟨s.data.map lowerChar⟩

/-- Class rung and final fallback of `generateRobustSelector`: the first
surviving static class as `.<class>`, else the original selector. -/
def classOrFallback (t : SemanticTarget) : String :=
  match strAttr t.attributes "class" with
  | some cls =>
    let sc := extractStaticClass cls
    if sc ≠ "" then "." ++ sc else t.selector
  | none => t.selector

/-- Model of `generateRobustSelector` from `pkg/semantic`: the priority ladder
aria-label, name, placeholder, stable data-* attribute, non-mixed id, first
static class, original selector. -/
def generateRobustSelector (t : SemanticTarget) : String :=
  let tag := asciiLower t.tag
  match strAttr t.attributes "aria-label" with
  | some v => attrSelector tag "aria-label" (escapeAttrValue v)
  | none =>
    match strAttr t.attributes "name" with
    | some v => attrSelector tag "name" (escapeAttrValue v)
    | none =>
      match strAttr t.attributes "placeholder" with
      | some v => attrSelector tag "placeholder" (escapeAttrValue v)
      | none =>
        match findDataAttr t.attributes with
        | some (k, v) => attrSelector tag k (escapeAttrValue v)
        | none =>
          match strAttr t.attributes "id" with
          | some v =>
            if ¬ containsNumbersAndLetters v then "#" ++ v
            else classOrFallback t
          | none => classOrFallback t

/-- A registered DOM node as consulted by selector enrichment (`GetNode`). -/
structure DomNode where
  tagName : String := ""
  attributes : Attrs := []
  deriving DecidableEq, Repr

/-- Per-action step of `enrichSelectors` (pkg/semantic): refresh tag and
attributes from the registry when the node id is known and the registered tag
is non-empty; for `window` or empty selectors generate a robust selector when
tag and attributes are available; otherwise default empty tags by action
kind, regenerate the selector and adopt it when non-empty and different. -/
def enrichOne (getNode : Nat → Option DomNode) (a0 : SemanticAction) : SemanticAction :=
  let a :=
    if a0.target.nodeID > 0 then
      match getNode a0.target.nodeID with
      | some node =>
        if node.tagName ≠ "" then
          { a0 with target :=
              { a0.target with tag := node.tagName, attributes := node.attributes } }
        else a0
      | none => a0
    else a0
  if a.target.selector = "window" ∨ a.target.selector = "" then
    if a.target.tag ≠ "" ∧ a.target.attributes.length > 0 then
      let rs := generateRobustSelector a.target
      if rs ≠ "" then { a with target := { a.target with selector := rs } } else a
    else a
  else
    let a :=
      if a.target.tag = "" then
        match a.actionType with
        | ActionType.input => { a with target := { a.target with tag := "input" } }
        | ActionType.click => { a with target := { a.target with tag := "element" } }
        | ActionType.dblclick => { a with target := { a.target with tag := "element" } }
        | ActionType.copy => { a with target := { a.target with tag := "element" } }
        | ActionType.paste => { a with target := { a.target with tag := "element" } }
        | _ => a
      else a
    let rs := generateRobustSelector a.target
    if rs ≠ "" ∧ rs ≠ a.target.selector then
      { a with target := { a.target with selector := rs } }
    else a

/-- Model of `enrichSelectors` from `pkg/semantic` (in-place update over the slice). -/
def enrichSelectors (getNode : Nat → Option DomNode) (actions : List SemanticAction) :
    List SemanticAction :=
  actions.map (enrichOne getNode)

/-- The extractor tolerance levels (pkg/semantic). -/
inductive ToleranceLevel where
  | low
  | medium
  | high
  deriving DecidableEq, Repr

/-- Keep-predicate of `filterLowValueActions` (pkg/semantic): drop inputs
without selectors, non-navigate actions with empty tags, media actions and
focus/blur; then apply the tolerance rank filter. -/
def keepsAction (tol : ToleranceLevel) (a : SemanticAction) : Bool :=
  if a.actionType = ActionType.input ∧ a.target.selector = "" then false
  else if a.target.tag = "" ∧ a.actionType ≠ ActionType.navigate then false
  else if a.actionType = ActionType.mediaPlay ∨ a.actionType = ActionType.mediaPause
      ∨ a.actionType = ActionType.mediaSeek then false
  else if a.actionType = ActionType.focus ∨ a.actionType = ActionType.blur then false
  else
    match tol with
    | ToleranceLevel.high => true
    | ToleranceLevel.medium => a.rank = InteractionRank.high ∨ a.rank = InteractionRank.medium
    | ToleranceLevel.low => a.rank = InteractionRank.high

/-- Model of `filterLowValueActions` from `pkg/semantic`. -/
def filterLowValueActions (tol : ToleranceLevel) (actions : List SemanticAction) :
    List SemanticAction :=
  actions.filter (keepsAction tol)

/-- Loop of `resequence` (pkg/semantic), assigning ids from `n` upward. -/
def resequenceFrom (n : Nat) : List SemanticAction → List SemanticAction
  | [] => []
  | a :: rest => { a with sequenceID := n } :: resequenceFrom (n + 1) rest

/-- Model of `resequence` from `pkg/semantic`: assign sequence ids 1..N in order. -/
def resequence (actions : List SemanticAction) : List SemanticAction :=
  resequenceFrom 1 actions

/-- The post-processing pipeline of `ExtractActions` (pkg/semantic), in
source order: navigate deduplication, input debounce, selector enrichment,
low-value filtering, resequencing. -/
def extractPipeline (getNode : Nat → Option DomNode) (tol : ToleranceLevel)
    (actions : List SemanticAction) : List SemanticAction :=
  resequence (filterLowValueActions tol
    (enrichSelectors getNode (debounceInputs (deduplicateNavigations actions))))

theorem resequenceFrom_length (l : List SemanticAction) :
    ∀ n, (resequenceFrom n l).length = l.length := by
  induction l with
  | nil => intro n; rfl
  | cons a rest ih =>
    intro n
    simp [resequenceFrom, ih]

theorem resequenceFrom_getElem (l : List SemanticAction) :
    ∀ n i (h : i < (resequenceFrom n l).length),
      ((resequenceFrom n l).get ⟨i, h⟩).sequenceID = n + i := by
  induction l with
  | nil =>
    intro n i h
    simp [resequenceFrom] at h
  | cons a rest ih =>
    intro n i h
    cases i with
    | zero => simp [resequenceFrom]
    | succ j =>
      have hj : j < (resequenceFrom (n + 1) rest).length := by
        simp only [resequenceFrom, List.length_cons] at h
        omega
      have := ih (n + 1) j hj
      simp only [resequenceFrom, List.get_cons_succ]
      rw [this]
      omega

/-- Claim C8.  The output of the extraction pipeline carries dense sequence
ids: its `i`-th action has sequence id `i + 1`, for every registry, tolerance
and input action list (resequencing is the last pipeline stage, so ids are
exactly 1..N with no gaps). -/
theorem extractPipeline_sequenceIDs
    (getNode : Nat → Option DomNode) (tol : ToleranceLevel)
    (actions : List SemanticAction) (i : Nat)
    (h : i < (extractPipeline getNode tol actions).length) :
    ((extractPipeline getNode tol actions).get ⟨i, h⟩).sequenceID = i + 1 := by
  have := resequenceFrom_getElem
    (filterLowValueActions tol
      (enrichSelectors getNode (debounceInputs (deduplicateNavigations actions))))
    1 i (by simpa [extractPipeline, resequence] using h)
  simpa [extractPipeline, resequence, Nat.add_comm] using this

/-- The single high-rank navigate used to witness the C8 theorem. -/
def c8Nav : SemanticAction :=
  { sequenceID := 7, actionType := .navigate, value := "https://x.test/",
    rank := .high, target := { selector := "window" } }

/-- Witness for the C8 theorem: a one-navigate run yields a single action
carrying sequence id 1. -/
theorem extractPipeline_sequenceIDs_witness :
    ((extractPipeline (fun _ => none) ToleranceLevel.medium [c8Nav]).get
        ⟨0, by decide⟩).sequenceID = 1 :=
  extractPipeline_sequenceIDs (fun _ => none) ToleranceLevel.medium [c8Nav] 0 (by decide)

/-- Erase the sequence id of an action (the only field resequencing touches). -/
def stripSeq (a : SemanticAction) : SemanticAction :=
  { a with sequenceID := 0 }

theorem resequenceFrom_map_stripSeq (l : List SemanticAction) :
    ∀ n, (resequenceFrom n l).map stripSeq = l.map stripSeq := by
  induction l with
  | nil => intro n; rfl
  | cons a rest ih =>
    intro n
    simp only [resequenceFrom, List.map_cons, ih]
    rfl

theorem resequenceFrom_congr_stripSeq :
    ∀ (l1 l2 : List SemanticAction) (n : Nat),
      l1.map stripSeq = l2.map stripSeq → resequenceFrom n l1 = resequenceFrom n l2 := by
  intro l1
  induction l1 with
  | nil =>
    intro l2 n h
    cases l2 with
    | nil => rfl
    | cons b t => simp at h
  | cons a rest ih =>
    intro l2 n h
    cases l2 with
    | nil => simp at h
    | cons b t =>
      simp only [List.map_cons, List.cons.injEq] at h
      have hhead : ({ a with sequenceID := n } : SemanticAction)
          = { b with sequenceID := n } := by
        have := congrArg (fun x => { x with sequenceID := n }) h.1
        simpa [stripSeq] using this
      simp only [resequenceFrom, hhead, ih t (n + 1) h.2]

theorem filterLowValueActions_congr_stripSeq (tol : ToleranceLevel) :
    ∀ (l1 l2 : List SemanticAction),
      l1.map stripSeq = l2.map stripSeq →
        (filterLowValueActions tol l1).map stripSeq =
          (filterLowValueActions tol l2).map stripSeq := by
  intro l1
  induction l1 with
  | nil =>
    intro l2 h
    cases l2 with
    | nil => rfl
    | cons b t => simp at h
  | cons a rest ih =>
    intro l2 h
    cases l2 with
    | nil => simp at h
    | cons b t =>
      simp only [List.map_cons, List.cons.injEq] at h
      have hk : keepsAction tol a = keepsAction tol b := by
        have h1 : keepsAction tol (stripSeq a) = keepsAction tol (stripSeq b) := by
          rw [h.1]
        exact h1
      simp only [filterLowValueActions, List.filter_cons]
      rw [hk]
      cases hkb : keepsAction tol b with
      | true =>
        simp only [if_true]
        simp only [List.map_cons, h.1]
        have := ih t h.2
        simp only [filterLowValueActions] at this
        rw [this]
      | false =>
        simp only [Bool.false_eq_true, if_false]
        have := ih t h.2
        simpa only [filterLowValueActions] using this

theorem filterLowValueActions_idem (tol : ToleranceLevel) (l : List SemanticAction) :
    filterLowValueActions tol (filterLowValueActions tol l) = filterLowValueActions tol l := by
  induction l with
  | nil => rfl
  | cons a rest ih =>
    simp only [filterLowValueActions, List.filter_cons]
    cases hk : keepsAction tol a with
    | true =>
      have ih2 := ih
      simp only [filterLowValueActions] at ih2
      simp only [if_true, List.filter_cons, hk, ih2]
    | false =>
      simp only [Bool.false_eq_true, if_false]
      simpa only [filterLowValueActions] using ih

/-- Claim C4, amended.  The full post-processing pipeline is not idempotent
(see the counterexample); its final block — low-value filtering followed by
resequencing — is: filtering ignores sequence ids and resequencing rewrites
only sequence ids, so applying the block twice equals applying it once. -/
theorem filter_resequence_idempotent (tol : ToleranceLevel) (l : List SemanticAction) :
    resequence (filterLowValueActions tol (resequence (filterLowValueActions tol l))) =
      resequence (filterLowValueActions tol l) := by
  have h1 : (resequence (filterLowValueActions tol l)).map stripSeq
      = (filterLowValueActions tol l).map stripSeq :=
    resequenceFrom_map_stripSeq (filterLowValueActions tol l) 1
  have h2 := filterLowValueActions_congr_stripSeq tol
    (resequence (filterLowValueActions tol l)) (filterLowValueActions tol l) h1
  rw [filterLowValueActions_idem tol l] at h2
  exact resequenceFrom_congr_stripSeq _ _ 1 h2

/-- First C4 counterexample action: an input on `#q`. -/
def c4In1 : SemanticAction :=
  { sequenceID := 1, actionType := .input,
    target := { tag := "input", selector := "#q" }, value := "a", rank := .high }

/-- Second C4 counterexample action: a focus action separating the inputs;
low-value filtering deletes it. -/
def c4Focus : SemanticAction :=
  { sequenceID := 2, actionType := .focus, target := { tag := "button" },
    rank := .medium }

/-- Third C4 counterexample action: another input on `#q`. -/
def c4In2 : SemanticAction :=
  { sequenceID := 3, actionType := .input,
    target := { tag := "input", selector := "#q" }, value := "ab", rank := .high }

/-- Claim C4, counterexample.  One pipeline application keeps both inputs
(the focus action between them blocks debouncing, and is then dropped by the
filter); a second application debounces the now-adjacent inputs into one, so
applying the pipeline twice yields a different (shorter) sequence. -/
theorem c4_pipeline_not_idempotent :
    (extractPipeline (fun _ => none) ToleranceLevel.medium
        (extractPipeline (fun _ => none) ToleranceLevel.medium
          [c4In1, c4Focus, c4In2])).length = 1
    ∧ (extractPipeline (fun _ => none) ToleranceLevel.medium
        [c4In1, c4Focus, c4In2]).length = 2 := by
  exact ⟨rfl, rfl⟩

theorem lookup_append_eq (l1 l2 : Attrs) (k : String) :
    (l1 ++ l2).lookup k = (l1.lookup k).or (l2.lookup k) := by
  induction l1 with
  | nil => simp [List.lookup]
  | cons e rest ih =>
    cases hb : (k == e.1) with
    | true => simp [List.lookup, hb]
    | false => simp [List.lookup, hb, ih]

theorem strAttr_append_irrelevant (l : Attrs) (k : String) (extra : Attrs)
    (hextra : extra.lookup k = none) : strAttr (l ++ extra) k = strAttr l k := by
  simp only [strAttr, lookup_append_eq, hextra]
  cases l.lookup k with
  | none => rfl
  | some v => rfl

theorem findDataAttr_append_none (extra : Attrs) (hextra : findDataAttr extra = none) :
    ∀ l : Attrs, findDataAttr (l ++ extra) = findDataAttr l := by
  intro l
  induction l with
  | nil => simpa using hextra
  | cons e rest ih =>
    rcases e with ⟨k, v⟩
    by_cases hk : strHasLead k "data-" ∧ ¬ containsNumbersAndLetters k
    · cases v with
      | str s =>
        by_cases hs : s ≠ "" ∧ s.length < 50
        · simp [findDataAttr, hk, hs]
        · simp [findDataAttr, hk, hs, ih]
      | nonString => simp [findDataAttr, hk, ih]
    · simp [findDataAttr, hk, ih]

/-- The attributes the claim's ladder consults but the code never reads. -/
def unreadAttrs (rv tv av : AttrValue) : Attrs :=
  [("role", rv), ("title", tv), ("aria-placeholder", av)]

/-- Claim C2, amended.  The extractor's selector synthesizer implements the
shorter ladder aria-label, name, placeholder, stable data-* attribute,
non-mixed id, first static class, and otherwise falls back to the target's
original selector: it is insensitive to `role`, `title` and
`aria-placeholder` attributes (the claim's accessibility and form rungs for
those keys do not exist); its first rung renders
`<tag>[aria-label='<escaped value>']`; and with no attributes at all it
returns the original selector rather than a structural path. -/
theorem generateRobustSelector_ladder :
    (∀ (t : SemanticTarget) (rv tv av : AttrValue),
      generateRobustSelector
          { t with attributes := t.attributes ++ unreadAttrs rv tv av }
        = generateRobustSelector t)
    ∧ (∀ (t : SemanticTarget) (v : String),
        strAttr t.attributes "aria-label" = some v →
          generateRobustSelector t =
            attrSelector (asciiLower t.tag) "aria-label" (escapeAttrValue v))
    ∧ (∀ t : SemanticTarget,
        generateRobustSelector { t with attributes := [] } = t.selector) := by
  refine ⟨?_, ?_, ?_⟩
  · intro t rv tv av
    have hlk : ∀ k : String, (unreadAttrs rv tv av).lookup k = none →
        strAttr (t.attributes ++ unreadAttrs rv tv av) k = strAttr t.attributes k :=
      fun k hk => strAttr_append_irrelevant t.attributes k _ hk
    have hal := hlk "aria-label" rfl
    have hnm := hlk "name" rfl
    have hph := hlk "placeholder" rfl
    have hid := hlk "id" rfl
    have hcl := hlk "class" rfl
    have hda : findDataAttr (t.attributes ++ unreadAttrs rv tv av)
        = findDataAttr t.attributes :=
      findDataAttr_append_none (unreadAttrs rv tv av) rfl t.attributes
    simp only [generateRobustSelector, classOrFallback, hal, hnm, hph, hid, hcl, hda]
  · intro t v hv
    simp only [generateRobustSelector, hv]
  · intro t
    simp only [generateRobustSelector, classOrFallback, strAttr, findDataAttr,
      List.lookup]

/-- Node of the C2 counterexample: a div carrying only a `role` attribute. -/
def c2RoleTarget : SemanticTarget :=
  { tag := "div", selector := "", attributes := [("role", AttrValue.str "button")] }

/-- Claim C2, counterexample.  The claim's accessibility rung would produce
the non-empty candidate `div[role='button']` for this node, but the code has
no `role` rung and returns the empty original selector. -/
theorem c2_ladder_counterexample :
    generateRobustSelector c2RoleTarget = ""
    ∧ attrSelector "div" "role" "button" ≠ "" := by
  constructor
  · rfl
  · decide

/-- Witness for the amended C2 theorem: append-insensitivity and the
aria-label rung at concrete targets, with the hypothesis discharged by
evaluation. -/
theorem generateRobustSelector_ladder_witness :
    generateRobustSelector
        { tag := "input", selector := "#q",
          attributes := [("aria-label", AttrValue.str "Search")]
            ++ unreadAttrs (AttrValue.str "searchbox") AttrValue.nonString
                  (AttrValue.str "Type here") }
      = generateRobustSelector
          { tag := "input", selector := "#q",
            attributes := [("aria-label", AttrValue.str "Search")] }
    ∧ generateRobustSelector
        { tag := "input", selector := "#q",
          attributes := [("aria-label", AttrValue.str "Search")] }
      = attrSelector "input" "aria-label" "Search" := by
  constructor
  · exact generateRobustSelector_ladder.1
      { tag := "input", selector := "#q",
        attributes := [("aria-label", AttrValue.str "Search")] }
      (AttrValue.str "searchbox") AttrValue.nonString (AttrValue.str "Type here")
  · have h := generateRobustSelector_ladder.2.1
      { tag := "input", selector := "#q",
        attributes := [("aria-label", AttrValue.str "Search")] }
      "Search" rfl
    simpa using h

/-- A serialized DOM node of the recording (`models.SerializedNode`):
integer id, tag, attributes, text, and recursively serialized children. -/
inductive SNode where
  | mk (id : Nat) (tagName : String) (attributes : Attrs) (textContent : String)
      (children : List SNode)
  deriving Repr

def SNode.nodeId : SNode → Nat
  | .mk i _ _ _ _ => i

/-- The ingestion parser's node registry (`pkg/ingestion`, `NodeRegistry`):
an id-to-node map and an id-to-parent map.  Go map assignment is modelled by
consing, with `List.lookup` returning the most recent binding. -/
structure IngRegistry where
  nodes : List (Nat × SNode) := []
  parents : List (Nat × Nat) := []
  deriving Repr

mutual

/-- Model of `registerNode` (pkg/ingestion): store the node under its id, record the
parent link when the parent id is non-zero, and recurse over the children. -/
def registerNode (reg : IngRegistry) (n : SNode) (parentID : Nat) : IngRegistry :=
  match n with
  | .mk i _ _ _ children =>
    let reg := { reg with nodes := (i, n) :: reg.nodes }
    let reg :=
      if parentID ≠ 0 then { reg with parents := (i, parentID) :: reg.parents } else reg
    registerChildren reg children i

def registerChildren (reg : IngRegistry) (cs : List SNode) (parentID : Nat) : IngRegistry :=
  match cs with
  | [] => reg
  | c :: rest => registerChildren (registerNode reg c parentID) rest parentID

end

/-- Fold of the adds list of a mutation (pkg/ingestion,
`processIncrementalSnapshot`): register each added node under its parent. -/
def applyAdds (reg : IngRegistry) : List (Nat × SNode) → IngRegistry
  | [] => reg
  | (parentID, n) :: rest => applyAdds (registerNode reg n parentID) rest

/-- Model of `processIncrementalSnapshot` from `pkg/ingestion`: for a mutation
(source 0) apply the adds list; every other source — and, notably, the
removes list — leaves the registry untouched. -/
def processIncrementalSnapshot (reg : IngRegistry) (src : Nat)
    (adds : List (Nat × SNode)) (removes : List (Nat × Nat)) : IngRegistry :=
  if src = 0 then applyAdds reg adds else reg

/-- Model of `GetNode` (pkg/ingestion). -/
def getNodeIng (reg : IngRegistry) (i : Nat) : Option SNode :=
  reg.nodes.lookup i

/-- Node bookkeeping record of the job-graph experiment (`main.go`,
`NodeInfo`): tag, attributes, parent id and the ordered child-id list. -/
structure NodeInfo where
  nodeId : Nat := 0
  tagName : String := ""
  attributes : Attrs := []
  parentID : Nat := 0
  children : List Nat := []
  deriving DecidableEq, Repr

/-- The job-graph experiment's registry (`main.go`, `NodeRegistry`). -/
abbrev JobRegistry := List (Nat × NodeInfo)

/-- Model of `Remove` from `main.go` (job-graph registry): look the id up; if absent,
do nothing; otherwise rebuild the parent's ordered child list without the id
and delete the id's entry. -/
def removeNode (r : JobRegistry) (i : Nat) : JobRegistry :=
  match r.lookup i with
  | none => r
  | some node =>
    let r := r.map (fun e =>
      if e.1 = node.parentID then
        (e.1, { e.2 with children := e.2.children.filter (fun cid => cid ≠ i) })
      else e)
    r.filter (fun e => e.1 ≠ i)

theorem lookup_filter_ne_none {κ α : Type} [DecidableEq κ] (i : κ) :
    ∀ l : List (κ × α), (l.filter (fun e => e.1 ≠ i)).lookup i = none := by
  intro l
  induction l with
  | nil => rfl
  | cons e rest ih =>
    by_cases hk : e.1 = i
    · simp [List.filter_cons, hk, ih]
      exact fun a b _ h hia => h hia.symm
    · have hb : (i == e.1) = false := by
        simp [Ne.symm hk]
      simp [List.filter_cons, hk, List.lookup, hb, ih]
      exact fun a b _ h hia => h hia.symm

/-- Claim C7, amended.  In the ingestion registry, a mutation applies only
its adds list: the removes list is ignored entirely (the registry after
processing is independent of it), so removed nodes remain registered.  The
job-graph experiment's registry does implement removal: after `Remove(id)`
the id resolves to nothing, an id absent from the registry makes `Remove` a
no-op, and the parent's ordered child list no longer contains the id. -/
theorem mutation_remove_handling :
    (∀ (reg : IngRegistry) (src : Nat) (adds : List (Nat × SNode))
        (removes removes2 : List (Nat × Nat)),
      processIncrementalSnapshot reg src adds removes =
        processIncrementalSnapshot reg src adds removes2)
    ∧ (∀ (r : JobRegistry) (i : Nat), (removeNode r i).lookup i = none)
    ∧ (∀ (r : JobRegistry) (i : Nat), r.lookup i = none → removeNode r i = r)
    ∧ (∀ (r : JobRegistry) (i : Nat) (node : NodeInfo), r.lookup i = some node →
        ∀ e ∈ removeNode r i, e.1 = node.parentID → i ∉ e.2.children) := by
  refine ⟨?_, ?_, ?_, ?_⟩
  · intro reg src adds removes removes2
    rfl
  · intro r i
    cases h : r.lookup i with
    | none => simpa [removeNode, h] using h
    | some node =>
      simp only [removeNode, h]
      exact lookup_filter_ne_none i _
  · intro r i h
    simp [removeNode, h]
  · intro r i node h e he hpar
    simp only [removeNode, h] at he
    have he2 := List.mem_of_mem_filter he
    rcases List.mem_map.mp he2 with ⟨orig, _, horig⟩
    by_cases hp : orig.1 = node.parentID
    · simp only [hp, if_true] at horig
      subst horig
      intro hmem
      have := List.of_mem_filter hmem
      simp at this
    · simp only [hp, if_false] at horig
      subst horig
      exact absurd hpar hp

/-- The parent entry of the C7 witness registry. -/
def c7Parent : NodeInfo := { nodeId := 1, tagName := "body", children := [5] }

/-- The child entry of the C7 witness registry. -/
def c7Child : NodeInfo := { nodeId := 5, tagName := "div", parentID := 1 }

/-- Witness for the amended C7 theorem: removing an unknown id is a no-op,
and removing a known id unlinks it from its parent's child list. -/
theorem mutation_remove_handling_witness :
    removeNode [(1, c7Parent)] 5 = [(1, c7Parent)]
    ∧ ∀ e ∈ removeNode [(1, c7Parent), (5, c7Child)] 5,
        e.1 = c7Child.parentID → (5 : Nat) ∉ e.2.children := by
  constructor
  · exact mutation_remove_handling.2.2.1 [(1, c7Parent)] 5 rfl
  · exact mutation_remove_handling.2.2.2 [(1, c7Parent), (5, c7Child)] 5 c7Child rfl

/-- The registered node of the C7 counterexample. -/
def c7Node : SNode := SNode.mk 5 "div" [] "" []

/-- A registry that already holds node 5 under parent 1. -/
def c7Reg : IngRegistry := { nodes := [(5, c7Node)], parents := [(5, 1)] }

/-- Claim C7, counterexample.  A mutation whose removes list names node 5
leaves the ingestion registry unchanged: node 5 is still registered
afterwards, refuting "each entry of the removes list unlinks the removed
node from its parent's ordered child list". -/
theorem c7_removes_ignored_counterexample :
    processIncrementalSnapshot c7Reg 0 [] [(1, 5)] = c7Reg
    ∧ getNodeIng (processIncrementalSnapshot c7Reg 0 [] [(1, 5)]) 5 = some c7Node := by
  exact ⟨rfl, rfl⟩

/-- The Go string name of each action type (`pkg/models/types.go`). -/
def actionTypeName : ActionType → String
  | .navigate => "navigate"
  | .click => "click"
  | .dblclick => "dblclick"
  | .rightclick => "rightclick"
  | .input => "input"
  | .keypress => "keypress"
  | .scroll => "scroll"
  | .hover => "hover"
  | .focus => "focus"
  | .blur => "blur"
  | .selectText => "select"
  | .copy => "copy"
  | .paste => "paste"
  | .cut => "cut"
  | .drag => "drag"
  | .drop => "drop"
  | .mediaPlay => "media_play"
  | .mediaPause => "media_pause"
  | .mediaSeek => "media_seek"
  | .fileUpload => "file_upload"
  | .submit => "submit"

/-- Go `fmt.Sprintf("%q", s)` restricted to the backslash and double-quote
escapes (the only ones arising on the selector and value strings handled
here). -/
def goQuote (s : String) : String :=
  "\"" ++ (⟨replaceChar dquoteChar [backslashChar, dquoteChar]
    (replaceChar backslashChar [backslashChar, backslashChar] s.data)⟩ : String) ++ "\""

/-- The code templates of `pkg/llm` (prompts.go), with their format slots
applied. -/
def navigateTemplate (d u : String) : String :=
  "// Navigate to " ++ d ++ "\npage.MustNavigate(" ++ u ++ ").MustWaitLoad()\n"

def clickTemplate (d s : String) : String :=
  "// Click " ++ d ++ "\npage.MustElement(" ++ s ++ ").MustWaitVisible().MustClick()\n"

def inputTemplate (d s v : String) : String :=
  "// Input into " ++ d ++ "\nelem := page.MustElement(" ++ s
    ++ ").MustWaitVisible()\nelem.MustSelectAllText().MustInput(" ++ v ++ ")\n"

def keypressTemplate (k1 k2 : String) : String :=
  "// Press " ++ k1 ++ " key\npage.Keyboard.MustType(input." ++ k2 ++ ")\n"

def dblClickTemplate (d s : String) : String :=
  "// Double click " ++ d ++ "\npage.MustElement(" ++ s
    ++ ").MustWaitVisible().MustAny(\"dblclick\")\n"

def rightClickTemplate (d s : String) : String :=
  "// Right click " ++ d ++ "\npage.MustElement(" ++ s
    ++ ").MustWaitVisible().MustClick(\"right\")\n"

def selectTemplate (d s : String) : String :=
  "// Select text " ++ d ++ "\npage.MustElement(" ++ s
    ++ ").MustWaitVisible().MustSelectAllText()\n"

def scrollTemplate (d s : String) : String :=
  "// Scroll " ++ d ++ "\npage.MustElement(" ++ s
    ++ ").MustWaitVisible().MustScrollIntoView()\n"

/-- Model of `GenerateCodeFromAction` from `pkg/llm` (the deterministic template
fallback).  The Go function ranges over the `variables` map when looking for
a parameter whose recorded value equals the action's value; Go map iteration
order is unspecified, so the embedding takes the map as an association list
whose order stands for one iteration order, and scans it front to back (the
Go loop breaks at the first match). -/
def generateCodeFromAction (action : SemanticAction)
    (vars : List (String × String)) : String :=
  let selector := goQuote action.target.selector
  let value0 :=
    match vars.find? (fun kv => action.value == kv.2) with
    | some kv => kv.1
    | none => action.value
  let value :=
    if action.actionType = ActionType.input ∧ value0 = action.value then goQuote value0
    else value0
  match action.actionType with
  | .navigate =>
    match vars.lookup action.value with
    | some urlVar => navigateTemplate action.value urlVar
    | none => navigateTemplate action.value (goQuote action.value)
  | .click =>
    let desc := if action.target.text = "" then action.target.selector else action.target.text
    clickTemplate desc selector
  | .input => inputTemplate action.target.selector selector value
  | .keypress =>
    if action.value = "Enter" then keypressTemplate "Enter" "Enter"
    else keypressTemplate action.value action.value
  | .dblclick => dblClickTemplate action.target.selector selector
  | .rightclick => rightClickTemplate action.target.selector selector
  | .selectText => selectTemplate action.value selector
  | .scroll => scrollTemplate action.target.selector selector
  | .focus =>
    "// Focus " ++ action.target.selector ++ "\npage.MustElement(" ++ selector
      ++ ").MustWaitVisible().MustFocus()"
  | .blur =>
    "// Blur " ++ action.target.selector ++ "\npage.MustElement(" ++ selector
      ++ ").MustWaitVisible().MustBlur()"
  | other => "// Unsupported action type: " ++ actionTypeName other ++ "\n"

theorem find?_eq_filter_head {α : Type} (p : α → Bool) :
    ∀ l : List α, l.find? p = (l.filter p).head? := by
  intro l
  induction l with
  | nil => rfl
  | cons a rest ih =>
    cases hp : p a with
    | true => rw [List.find?_cons_of_pos _ hp, List.filter_cons_of_pos hp, List.head?_cons]
    | false =>
      have hp2 : ¬ p a = true := by simp [hp]
      rw [List.find?_cons_of_neg _ hp2, List.filter_cons_of_neg hp2, ih]

theorem perm_filter_le_one_eq {α : Type} {p : α → Bool} {l1 l2 : List α}
    (h : l1.Perm l2) (hlen : (l1.filter p).length ≤ 1) :
    l1.filter p = l2.filter p := by
  have hperm := h.filter p
  cases h1 : l1.filter p with
  | nil =>
    rw [h1] at hperm
    exact hperm.nil_eq
  | cons a t =>
    rw [h1] at hperm hlen
    cases t with
    | nil => exact (List.singleton_perm.mp hperm).symm.symm
    | cons b t2 => simp at hlen
  

theorem lookup_eq_find {β : Type} (k : String) :
    ∀ l : List (String × β), l.lookup k = (l.find? (fun e => k == e.1)).map Prod.snd := by
  intro l
  induction l with
  | nil => rfl
  | cons e rest ih =>
    cases hb : (k == e.1) with
    | true => simp [List.lookup, List.find?_cons, hb]
    | false => simp [List.lookup, List.find?_cons, hb, ih]

theorem nodup_keys_filter_le_one {β : Type} (k : String) :
    ∀ l : List (String × β), (l.map Prod.fst).Nodup →
      (l.filter (fun e => k == e.1)).length ≤ 1 := by
  intro l
  induction l with
  | nil => intro _; simp
  | cons e rest ih =>
    intro hnd
    rw [List.map_cons, List.nodup_cons] at hnd
    cases hb : (k == e.1) with
    | true =>
      have hk : k = e.1 := by simpa using hb
      have hrest : rest.filter (fun x => k == x.1) = [] := by
        rw [List.filter_eq_nil_iff]
        intro x hx
        intro hpx
        have hx1 : x.1 = e.1 := by
          have : k = x.1 := by simpa using hpx
          rw [← this, hk]
        exact hnd.1 (hx1 ▸ List.mem_map_of_mem Prod.fst hx)
      simp [List.filter_cons, hb, hrest]
    | false =>
      simp only [List.filter_cons, hb, Bool.false_eq_true, if_false]
      exact ih hnd.2

theorem lookup_perm_nodup {β : Type} {l1 l2 : List (String × β)}
    (h : l1.Perm l2) (hnd : (l1.map Prod.fst).Nodup) (k : String) :
    l1.lookup k = l2.lookup k := by
  rw [lookup_eq_find, lookup_eq_find, find?_eq_filter_head, find?_eq_filter_head,
    perm_filter_le_one_eq h (nodup_keys_filter_le_one k l1 hnd)]

/-- Claim C6, amended.  The template generator is deterministic only up to
the unspecified iteration order of the Go parameter map: representing one
iteration order as a list, any two orders (permutations with the same keys,
keys unique as in a Go map) give byte-identical code whenever the action is
not an `input`, or at most one parameter's recorded value equals the
action's value.  With two parameters sharing the action's value, two
iteration orders give different code for an input action (see the
counterexample). -/
theorem generateCodeFromAction_deterministic :
    ∀ (a : SemanticAction) (l1 l2 : List (String × String)),
      l1.Perm l2 → (l1.map Prod.fst).Nodup →
      (a.actionType ≠ ActionType.input
        ∨ (l1.filter (fun kv => a.value == kv.2)).length ≤ 1) →
      generateCodeFromAction a l1 = generateCodeFromAction a l2 := by
  intro a l1 l2 hperm hnd hcond
  have hfind : (l1.filter (fun kv => a.value == kv.2)).length ≤ 1 →
      l1.find? (fun kv => a.value == kv.2) = l2.find? (fun kv => a.value == kv.2) := by
    intro hle
    rw [find?_eq_filter_head, find?_eq_filter_head, perm_filter_le_one_eq hperm hle]
  have hlook : l1.lookup a.value = l2.lookup a.value := lookup_perm_nodup hperm hnd a.value
  rcases a with ⟨seq, ty, tgt, v, rk, md, ts⟩
  simp only at hfind hlook hcond
  cases ty with
  | navigate =>
    simp only [generateCodeFromAction]
    rw [hlook]
  | input =>
    rcases hcond with hne | hle
    · exact absurd rfl hne
    · simp only [generateCodeFromAction]
      rw [hfind hle]
  | click => rfl
  | dblclick => rfl
  | rightclick => rfl
  | keypress => rfl
  | scroll => rfl
  | hover => rfl
  | focus => rfl
  | blur => rfl
  | selectText => rfl
  | copy => rfl
  | paste => rfl
  | cut => rfl
  | drag => rfl
  | drop => rfl
  | mediaPlay => rfl
  | mediaPause => rfl
  | mediaSeek => rfl
  | fileUpload => rfl
  | submit => rfl

/-- The input action of the C6 counterexample: its value `x` is the recorded
value of two different parameters. -/
def c6Act : SemanticAction :=
  { actionType := .input, value := "x", target := { selector := "s" } }

/-- Claim C6, counterexample.  The two association lists represent the same
Go parameter map `{a: x, b: x}` under its two iteration orders, yet the
generated code differs (it substitutes parameter name `a` in one order and
`b` in the other): the generator's output is not a function of
(action, parameter map) alone. -/
theorem c6_generator_order_dependent :
    List.Perm [("a", "x"), ("b", "x")] [("b", "x"), ("a", "x")]
    ∧ generateCodeFromAction c6Act [("a", "x"), ("b", "x")]
      ≠ generateCodeFromAction c6Act [("b", "x"), ("a", "x")] := by
  constructor
  · exact List.Perm.swap ("b", "x") ("a", "x") []
  · decide

/-- Witness for the amended C6 theorem: with unique keys and a single
matching value, two iteration orders generate identical input code. -/
theorem generateCodeFromAction_deterministic_witness :
    generateCodeFromAction c6Act [("u", "1"), ("w", "x")]
      = generateCodeFromAction c6Act [("w", "x"), ("u", "1")] :=
  generateCodeFromAction_deterministic c6Act [("u", "1"), ("w", "x")]
    [("w", "x"), ("u", "1")] (List.Perm.swap ("w", "x") ("u", "1") [])
    (by decide) (Or.inr (by decide))

/-- Node record of the one-file experiment (`part_002`, `SemanticNode`). -/
structure PSemanticNode where
  tag : String := ""
  text : String := ""
  selector : String := ""
  attributes : Attrs := []
  deriving DecidableEq, Repr

/-- Event record of the one-file experiment (`part_002`, `SemanticEvent`);
`eventType` is the Go `Type` string field. -/
structure PSemanticEvent where
  seq : Nat := 0
  eventType : String := ""
  target : PSemanticNode := {}
  rank : String := ""
  value : String := ""
  context : List PSemanticNode := []
  deriving DecidableEq, Repr

/-- The attribute whitelist of `PostProcess` (part_002). -/
def validAttrKeys : List String := ["id", "name", "class", "role", "placeholder"]

/-- Attribute cleaning and context wipe of `PostProcess` (part_002). -/
def cleanEvent (evt : PSemanticEvent) : PSemanticEvent :=
  { evt with
    target := { evt.target with
      attributes := evt.target.attributes.filter (fun kv => validAttrKeys.contains kv.1) },
    context := [] }

/-- Enter-key repair of `PostProcess` (part_002): an input with value exactly
`en` and tag `unknown` becomes a keypress `Enter`, inheriting the selector of
the last already-compressed event when one exists. -/
def enterFix (compressed : List PSemanticEvent) (evt : PSemanticEvent) : PSemanticEvent :=
  if evt.eventType = "input" ∧ evt.value = "en" ∧ evt.target.tag = "unknown" then
    let evt := { evt with eventType := "keypress", value := "Enter" }
    match compressed.getLast? with
    | some prev => { evt with target := { evt.target with selector := prev.target.selector } }
    | none => evt
  else evt

/-- One iteration of the `PostProcess` loop (part_002): clean the event; if
the previous compressed event is an input on the same selector and this event
is an input, merge by overwriting the previous value and drop this event
(this debounce branch runs before the Enter-key repair); otherwise apply the
repair and append.  The Go guard is `i > 0`, which coincides with
`compressed` being non-empty since every earlier iteration appended or
merged. -/
def postStep (compressed : List PSemanticEvent) (evt0 : PSemanticEvent) :
    List PSemanticEvent :=
  let evt := cleanEvent evt0
  match compressed.getLast? with
  | some prev =>
    if prev.eventType = "input" ∧ evt.eventType = "input"
        ∧ prev.target.selector = evt.target.selector then
      compressed.dropLast ++ [{ prev with value := evt.value }]
    else compressed ++ [enterFix compressed evt]
  | none => compressed ++ [enterFix compressed evt]

/-- Model of `PostProcess` from part_002. -/
def postProcess (events : List PSemanticEvent) : List PSemanticEvent :=
  events.foldl postStep []

/-- Claim C9, amended.  The Enter-key repair applies to an input with value
exactly `en` and tag `unknown` only when the debounce branch does not consume
it first: if the previously compressed event is not an input on the same
selector, the event is rewritten to a keypress `Enter` inheriting the
previous event's selector (kept as-is when there is no previous event); but
when the previous compressed event is an input on the same selector, the
debounce branch merges the `en` value into it and no rewrite happens. -/
theorem enter_key_repair :
    (∀ (compressed : List PSemanticEvent) (evt prev : PSemanticEvent),
      evt.eventType = "input" → evt.value = "en" → evt.target.tag = "unknown" →
      compressed.getLast? = some prev →
      ¬ (prev.eventType = "input" ∧ prev.target.selector = evt.target.selector) →
      postStep compressed evt =
        compressed ++ [{ cleanEvent evt with
          eventType := "keypress"
          value := "Enter"
          target := { (cleanEvent evt).target with selector := prev.target.selector } }])
    ∧ (∀ (compressed : List PSemanticEvent) (evt prev : PSemanticEvent),
        compressed.getLast? = some prev →
        prev.eventType = "input" → evt.eventType = "input" →
        prev.target.selector = evt.target.selector →
        postStep compressed evt = compressed.dropLast ++ [{ prev with value := evt.value }])
    ∧ (∀ evt : PSemanticEvent,
        evt.eventType = "input" → evt.value = "en" → evt.target.tag = "unknown" →
        postStep [] evt = [{ cleanEvent evt with eventType := "keypress", value := "Enter" }]) := by
  refine ⟨?_, ?_, ?_⟩
  · intro compressed evt prev hty hval htag hlast hnd
    have hty2 : (cleanEvent evt).eventType = "input" := hty
    have hsel : (cleanEvent evt).target.selector = evt.target.selector := rfl
    have hcond : ¬ (prev.eventType = "input" ∧ (cleanEvent evt).eventType = "input"
        ∧ prev.target.selector = (cleanEvent evt).target.selector) := by
      intro hc
      exact hnd ⟨hc.1, hc.2.2⟩
    simp only [postStep, hlast, hcond, if_false]
    have hfix : enterFix compressed (cleanEvent evt) =
        { cleanEvent evt with
          eventType := "keypress"
          value := "Enter"
          target := { (cleanEvent evt).target with selector := prev.target.selector } } := by
      simp only [enterFix, hty2]
      have hv2 : (cleanEvent evt).value = "en" := hval
      have ht2 : (cleanEvent evt).target.tag = "unknown" := htag
      simp only [hv2, ht2, hlast, and_true, if_true]
    rw [hfix]
  · intro compressed evt prev hlast hpty hty hsel
    have hcond : prev.eventType = "input" ∧ (cleanEvent evt).eventType = "input"
        ∧ prev.target.selector = (cleanEvent evt).target.selector := ⟨hpty, hty, hsel⟩
    simp only [postStep, hlast, hcond, if_true]
    rfl
  · intro evt hty hval htag
    have hty2 : (cleanEvent evt).eventType = "input" := hty
    have hv2 : (cleanEvent evt).value = "en" := hval
    have ht2 : (cleanEvent evt).target.tag = "unknown" := htag
    simp only [postStep, List.getLast?]
    simp only [enterFix, hty2, hv2, ht2, and_true, if_true, List.getLast?]
    rfl

/-- First C9 counterexample event: an input on an unknown node. -/
def c9In1 : PSemanticEvent :=
  { seq := 1, eventType := "input",
    target := { tag := "unknown", selector := "unknown" }, rank := "High",
    value := "hello" }

/-- Second C9 counterexample event: an input with value `en` on the same
unknown node. -/
def c9In2 : PSemanticEvent :=
  { seq := 2, eventType := "input",
    target := { tag := "unknown", selector := "unknown" }, rank := "High",
    value := "en" }

/-- The compressed click event preceding the `en` input in the C9 witness. -/
def c9Click : PSemanticEvent :=
  { seq := 1, eventType := "click",
    target := { tag := "button", selector := "#search" } }

/-- Witness for the amended C9 theorem: with a previous click, the `en`
input becomes a keypress `Enter` inheriting the click's selector. -/
theorem enter_key_repair_witness :
    postStep [c9Click] c9In2 =
      [c9Click,
        { c9In2 with
          eventType := "keypress"
          value := "Enter"
          target := { c9In2.target with selector := "#search" } }] := by
  have h := enter_key_repair.1 [c9Click] c9In2 c9Click
    rfl rfl rfl rfl (by intro hc; exact absurd hc.1 (by decide))
  simpa using h

/-- Claim C9, counterexample.  When the `en` input directly follows another
input on the same (unknown) selector, the debounce branch consumes it: the
surviving event is still an `input` with value `en` and tag `unknown`, and no
keypress `Enter` is produced, refuting "every input action whose value is
exactly en and whose target tag is unknown is rewritten into a keypress". -/
theorem c9_enter_repair_counterexample :
    postProcess [c9In1, c9In2] = [{ c9In1 with value := "en" }]
    ∧ ({ c9In1 with value := "en" } : PSemanticEvent).eventType = "input"
    ∧ ({ c9In1 with value := "en" } : PSemanticEvent).target.tag = "unknown" := by
  exact ⟨rfl, rfl, rfl⟩

/-- The process-wide browser session map (`pkg/temporal/activities`,
`browserPool.sessions`): session id to opaque session data.  Go map
insertion is modelled by consing; `List.lookup` reads the newest binding. -/
abbrev SessionPool := List (String × Nat)

/-- Model of `CloseBrowserActivity` (activities): a session id absent from the map is
a no-op returning nil; otherwise the browser is closed and the entry deleted.
The second component is the returned error, `none` meaning success. -/
def closeBrowserActivity (pool : SessionPool) (sid : String) :
    SessionPool × Option String :=
  match pool.lookup sid with
  | none => (pool, none)
  | some _ => (pool.filter (fun e => e.1 ≠ sid), none)

/-- Activity invocations the orchestration can make, as recorded in a trace. -/
inductive ActivityCall where
  | preGenerate
  | initBrowser
  | executeAction (seq : Nat)
  | closeBrowser (sid : String)
  deriving DecidableEq, Repr

/-- Trace of the action loop: one `executeAction` per processed action,
stopping after a failure that denies continuation. -/
def execLoopTrace : List (SemanticAction × Bool) → List ActivityCall
  | [] => []
  | (a, ok) :: rest =>
    if ok then ActivityCall.executeAction a.sequenceID :: execLoopTrace rest
    else if shouldContinueOnFailure a then
      ActivityCall.executeAction a.sequenceID :: execLoopTrace rest
    else [ActivityCall.executeAction a.sequenceID]

/-- Model of `BrowserAutomationWorkflow` (browser_workflow.go), at the granularity the
resource claims need: pre-generate, initialize the browser (registering a
fresh session id in the pool — the activity draws a fresh uuid; the id is a
parameter here), run the action loop, and run the deferred close with that
session id on every exit path of the loop.  When initialization fails the
workflow returns `failed` before the deferred close is installed.  Returns
the final status, the pool after the run, and the activity trace. -/
def browserWorkflow (pool : SessionPool) (initOk : Bool) (sid : String)
    (actions : List (SemanticAction × Bool)) :
    RunStatus × SessionPool × List ActivityCall :=
  if ¬ initOk then
    (RunStatus.failed, pool, [ActivityCall.preGenerate, ActivityCall.initBrowser])
  else
    let pool1 := (sid, 0) :: pool
    let st := execLoop actions { status := RunStatus.running, results := [] }
    let (pool2, _) := closeBrowserActivity pool1 sid
    (finalStatus st, pool2,
      [ActivityCall.preGenerate, ActivityCall.initBrowser]
        ++ execLoopTrace actions ++ [ActivityCall.closeBrowser sid])

theorem execLoopTrace_no_close (sid : String) :
    ∀ acts : List (SemanticAction × Bool),
      (execLoopTrace acts).count (ActivityCall.closeBrowser sid) = 0 := by
  intro acts
  induction acts with
  | nil => rfl
  | cons p rest ih =>
    rcases p with ⟨a, ok⟩
    cases ok with
    | true => simpa [execLoopTrace] using ih
    | false =>
      by_cases hc : shouldContinueOnFailure a = true
      · simpa [execLoopTrace, hc] using ih
      · simp [execLoopTrace, hc]

theorem finalStatus_terminal (st : LoopState) :
    finalStatus st = RunStatus.success ∨ finalStatus st = RunStatus.failed := by
  unfold finalStatus
  by_cases h1 : st.status = RunStatus.failed
  · simp [h1]
  · by_cases h2 : st.results.all (fun r => r.2 = RunStatus.success) = true
    · simp [h1, h2]
    · simp [h1, h2]

/-- Claim C5.  For every run whose browser session initialized successfully,
the workflow reaches a terminal state (`success` or `failed`), the deferred
close has been invoked exactly once with the run's session id, and the
session map afterwards holds no entry for that id.  Closing an absent
session id is a no-op returning success, and running the close twice equals
running it once (idempotence). -/
theorem browserWorkflow_releases_session :
    (∀ (pool : SessionPool) (sid : String) (acts : List (SemanticAction × Bool)),
      ((browserWorkflow pool true sid acts).2.2.count (ActivityCall.closeBrowser sid) = 1)
      ∧ ((browserWorkflow pool true sid acts).2.1.lookup sid = none)
      ∧ ((browserWorkflow pool true sid acts).1 = RunStatus.success
          ∨ (browserWorkflow pool true sid acts).1 = RunStatus.failed))
    ∧ (∀ (pool : SessionPool) (sid : String),
        pool.lookup sid = none → closeBrowserActivity pool sid = (pool, none))
    ∧ (∀ (pool : SessionPool) (sid : String),
        closeBrowserActivity (closeBrowserActivity pool sid).1 sid =
          ((closeBrowserActivity pool sid).1, none)) := by
  refine ⟨?_, ?_, ?_⟩
  · intro pool sid acts
    refine ⟨?_, ?_, ?_⟩
    · simp only [browserWorkflow, not_true, if_false]
      simp [List.count_append, execLoopTrace_no_close sid acts, List.count_cons,
        List.count_nil]
    · simp only [browserWorkflow, not_true, if_false]
      have hlk : ((sid, 0) :: pool).lookup sid = some 0 := by
        simp [List.lookup]
      have h2 : ((((sid, 0) :: pool) : SessionPool).filter
          (fun e => e.1 ≠ sid)).lookup sid = none :=
        lookup_filter_ne_none sid ((sid, 0) :: pool)
      simp [closeBrowserActivity, hlk, h2]
      exact fun a b _ h hia => h hia.symm
    · simp only [browserWorkflow, not_true, if_false]
      exact finalStatus_terminal _
  · intro pool sid h
    simp [closeBrowserActivity, h]
  · intro pool sid
    cases h : pool.lookup sid with
    | none => simp [closeBrowserActivity, h]
    | some d =>
      have h2 : (pool.filter (fun e => e.1 ≠ sid)).lookup sid = none :=
        lookup_filter_ne_none sid pool
      simp only [closeBrowserActivity, h]
      rw [h2]

/-- Witness for the C5 theorem: a concrete one-action run with a failing
action still closes and deregisters its session, and a double close equals a
single close. -/
theorem browserWorkflow_releases_session_witness :
    ((browserWorkflow [("other", 3)] true "s1"
        [({ sequenceID := 1, actionType := .click, rank := .high }, false)]).2.1.lookup "s1"
      = none)
    ∧ closeBrowserActivity [("other", 3)] "s1" = ([("other", 3)], none) := by
  constructor
  · exact (browserWorkflow_releases_session.1 [("other", 3)] "s1"
      [({ sequenceID := 1, actionType := .click, rank := .high }, false)]).2.1
  · exact browserWorkflow_releases_session.2.1 [("other", 3)] "s1" rfl
